import Mathlib

/-!
Shallow embedding of the moneromesh statistics backend
(`monerodClient.ts`, `p2poolClient.ts`, `statsService.ts`).

JavaScript numbers are modelled as `ℚ`, epoch instants (milliseconds or
seconds) as `Int`, and fallible async calls as `Except`-valued oracles
supplied as parameters.  A `Date.toISOString()` rendering is abstracted by
carrying the underlying epoch value (or an opaque string for "now") where
only identity of the value matters.
-/

/-! ### Hashrate formatter (`formatHashrate`, the identical private method
of `MonerodClient` and `P2PoolClient`) -/

/-- The ordered unit sequence used by `formatHashrate`. -/
def hashrateUnits : List String := ["H/s", "KH/s", "MH/s", "GH/s", "TH/s"]

/-- JavaScript `Number.prototype.toFixed(2)` for non-negative rationals:
round to the nearest multiple of 1/100, ties toward the larger candidate,
then print with exactly two digits after the decimal point. -/
def toFixed2 (q : ℚ) : String :=
  let n : Int := ⌊q * 100 + 1 / 2⌋
  let m : Nat := n.toNat
  let ip : Nat := m / 100
  let fp : Nat := m % 100
  toString ip ++ "." ++ (if fp < 10 then "0" ++ toString fp else toString fp)

/-- The scaling loop of `formatHashrate`:
`while (hashrate >= 1000 && unitIndex < units.length - 1)`.
`unitIndex` strictly increases and the guard caps it at `4`, so the loop
body runs at most four times; the first argument is that iteration bound. -/
def formatLoop : Nat → ℚ → Nat → ℚ × Nat
  | 0, h, idx => (h, idx)
  | fuel + 1, h, idx =>
    if 1000 ≤ h ∧ idx < 4 then formatLoop fuel (h / 1000) (idx + 1) else (h, idx)

/-- `formatHashrate` from the source: scale into the unit table, then
`toFixed(2)` and append the chosen unit. -/
def formatHashrate (hashrate : ℚ) : String :=
  let p := formatLoop 4 hashrate 0
  toFixed2 p.1 ++ " " ++ hashrateUnits.getD p.2 ""

/-- Closed form of the unit index chosen by the scaling loop on a
non-negative rate: the largest exponent `k ≤ 4` with `1000 ^ k ≤ rate`
(0 when the rate is below 1000). -/
def specUnitIdx (q : ℚ) : Nat :=
  if q < 1000 then 0
  else if q < 1000 ^ 2 then 1
  else if q < 1000 ^ 3 then 2
  else if q < 1000 ^ 4 then 3
  else 4

/-! ### Cache primitive (`StatsService`) -/

/-- 30-second cache TTL (`cacheTimeout = 30000` milliseconds). -/
def cacheTimeout : Int := 30000

/-- One cache slot: `{ data, timestamp }`. -/
structure CacheEntry (α : Type) where
  data : α
  timestamp : Int
deriving Repr, DecidableEq

/-- A JavaScript `Map` keyed by strings, as an insertion-ordered
association list. -/
abbrev StrMap (β : Type) : Type := List (String × β)

/-- `Map.prototype.get`. -/
def mapGet {β : Type} : StrMap β → String → Option β
  | [], _ => none
  | (k', v) :: rest, k => if k' = k then some v else mapGet rest k

/-- `Map.prototype.set`: overwrite in place when the key is present
(keeping insertion order), otherwise append at the end. -/
def mapSet {β : Type} : StrMap β → String → β → StrMap β
  | [], k, v => [(k, v)]
  | (k', v') :: rest, k, v =>
    if k' = k then (k, v) :: rest else (k', v') :: mapSet rest k v

/-- The `StatsService` cache: `Map<string, { data, timestamp }>`. -/
abbrev Cache (α : Type) : Type := StrMap (CacheEntry α)

/-- Outcome of one `getCachedData` call: the returned (or thrown) value,
the cache afterwards, and whether `fetchFn` was invoked. -/
structure CacheCallResult (ε α : Type) where
  result : Except ε α
  cache : Cache α
  fetched : Bool

/-- `StatsService.getCachedData` at one instant `now`, with the outcome the
fetch function would produce supplied as `fetchResult`: a fresh hit returns
the cached data without fetching; otherwise the fetch runs — on success the
entry is overwritten with the new data and `now`, on failure a (possibly
expired) existing entry is returned as stale fallback, and only with no
entry at all does the error propagate. -/
def getCachedData {ε α : Type} (cache : Cache α) (key : String) (now : Int)
    (fetchResult : Except ε α) : CacheCallResult ε α :=
  match mapGet cache key with
  | some cached =>
    if now - cached.timestamp < cacheTimeout then
      ⟨Except.ok cached.data, cache, false⟩
    else
      match fetchResult with
      | Except.ok data => ⟨Except.ok data, mapSet cache key ⟨data, now⟩, true⟩
      | Except.error _ => ⟨Except.ok cached.data, cache, true⟩
  | none =>
    match fetchResult with
    | Except.ok data => ⟨Except.ok data, mapSet cache key ⟨data, now⟩, true⟩
    | Except.error e => ⟨Except.error e, cache, true⟩

/-- One row of `getCacheStatus`: `{ age, valid }`. -/
structure CacheStatusEntry where
  age : Int
  valid : Bool
deriving Repr, DecidableEq

/-- `StatsService.getCacheStatus`: per cached key, the elapsed time since
the entry's write and whether that age is still within the TTL. -/
def getCacheStatus {α : Type} (cache : Cache α) (now : Int) :
    StrMap CacheStatusEntry :=
  cache.map (fun p =>
    (p.1, ⟨now - p.2.timestamp, decide (now - p.2.timestamp < cacheTimeout)⟩))

/-- `StatsService.clearCache`: `this.cache.clear()`. -/
def clearCache {α : Type} (_cache : Cache α) : Cache α := []

/-- Modelled from the spec (claim wording for `getCacheStatus`): an entry
is reported invalid exactly when it is older than 30,000 ms; otherwise, for
any age of at most 30,000 ms, it is reported valid. -/
def validPerClaimC8 (age : Int) : Bool := !(30000 < age)

/-! ### Daemon client (`MonerodClient`) -/

/-- The `{ height, timestamp, difficulty }` sample taken from each
`get_block` response's `block_header`. -/
structure BlockHeader where
  height : Int
  timestamp : Int
  difficulty : ℚ
deriving Repr, DecidableEq

/-- `calculateSimpleHashrate`: latest block's difficulty over the
120-second target time (only invoked on lists of length at least 2). -/
def calculateSimpleHashrate (blocks : List BlockHeader) : ℚ :=
  (blocks.headD ⟨0, 0, 0⟩).difficulty / 120

/-- The accumulation loop of `calculateWeightedHashrate`: walking adjacent
pairs `(blocks[i], blocks[i+1])` starting at index `i`, returning the pair
`(totalWeightedHashrate, totalWeight)`.  Pairs with non-positive timestamp
difference are skipped; otherwise `difficulty / Δt` is added with weight
`1 / (i + 1)`. -/
def weightedSumsAux : List BlockHeader → Nat → ℚ × ℚ
  | b1 :: b2 :: rest, i =>
    let prev := weightedSumsAux (b2 :: rest) (i + 1)
    let timeDiff : ℚ := ((b1.timestamp - b2.timestamp : Int) : ℚ)
    if timeDiff ≤ 0 then prev
    else (prev.1 + b1.difficulty / timeDiff * (1 / ((i : ℚ) + 1)),
          prev.2 + 1 / ((i : ℚ) + 1))
  | _, _ => (0, 0)

/-- `calculateWeightedHashrate`: 0 on fewer than 2 blocks; otherwise the
accumulated weighted sum divided by the total weight, or 0 when the total
weight is not positive. -/
def calculateWeightedHashrate (blocks : List BlockHeader) : ℚ :=
  if blocks.length < 2 then 0
  else
    let s := weightedSumsAux blocks 0
    if 0 < s.2 then s.1 / s.2 else 0

/-- `calculateTimeBasedHashrate`: average difficulty over the whole
timestamp span (computed but unused by `calculateNetworkHashrate`). -/
def calculateTimeBasedHashrate (blocks : List BlockHeader) : ℚ :=
  if blocks.length < 2 then 0
  else
    let firstBlock := blocks.getLastD ⟨0, 0, 0⟩
    let lastBlock := blocks.headD ⟨0, 0, 0⟩
    let timeDiff : ℚ := ((lastBlock.timestamp - firstBlock.timestamp : Int) : ℚ)
    if timeDiff ≤ 0 then 0
    else ((blocks.map (·.difficulty)).sum / (blocks.length : ℚ)) / timeDiff

/-- The block-collection loop of `calculateNetworkHashrate`: for
`i = 0, 1, ...` fetch the block at `currentHeight - i - 1`, stopping before
a negative height; a failing fetch aborts the whole try block.  The `Nat`
arguments are the loop index `i` and the remaining iterations
(`blockCount - i`). -/
def collectBlocksAux (getBlock : Int → Except Unit BlockHeader)
    (currentHeight : Int) : Nat → Nat → Except Unit (List BlockHeader)
  | _, 0 => Except.ok []
  | i, fuel + 1 =>
    if currentHeight - i - 1 < 0 then Except.ok []
    else
      match getBlock (currentHeight - i - 1) with
      | Except.error e => Except.error e
      | Except.ok b =>
        match collectBlocksAux getBlock currentHeight (i + 1) fuel with
        | Except.error e => Except.error e
        | Except.ok rest => Except.ok (b :: rest)

/-- The `blocks` array assembled by `calculateNetworkHashrate`
(newest first). -/
def collectBlocks (getBlock : Int → Except Unit BlockHeader)
    (currentHeight : Int) (blockCount : Nat) : Except Unit (List BlockHeader) :=
  collectBlocksAux getBlock currentHeight 0 blockCount

/-- The `{ hashrate, hashrateNumber, method }` result of
`calculateNetworkHashrate`. -/
structure HashrateResult where
  hashrate : String
  hashrateNumber : ℚ
  method : String
deriving Repr, DecidableEq

/-- `calculateNetworkHashrate`: collect up to `blockCount` recent blocks;
with at least 2 of them the weighted estimator is authoritative (the simple
and time-based estimators are also computed but discarded); a failed fetch
or fewer than 2 blocks (`throw new Error('Not enough blocks ...')`) lands
in the catch branch, which falls back to `getDifficulty() / 120` tagged
`"difficulty_fallback"`.  `difficulty` is the value `getDifficulty`
returned in that catch branch (itself 0 if even that call failed, so the
fallback never throws). -/
def calculateNetworkHashrate (getBlock : Int → Except Unit BlockHeader)
    (currentHeight : Int) (blockCount : Nat) (difficulty : ℚ) : HashrateResult :=
  match collectBlocks getBlock currentHeight blockCount with
  | Except.ok blocks =>
    if blocks.length < 2 then
      ⟨formatHashrate (difficulty / 120), difficulty / 120, "difficulty_fallback"⟩
    else
      ⟨formatHashrate (calculateWeightedHashrate blocks),
        calculateWeightedHashrate blocks, "weighted_average"⟩
  | Except.error _ =>
    ⟨formatHashrate (difficulty / 120), difficulty / 120, "difficulty_fallback"⟩

/-- The `MonerodStats` interface. -/
structure MonerodStats where
  status : String
  blockHeight : Int
  networkHashrate : String
  difficulty : ℚ
  lastBlockTime : String
  totalSupply : String
  circulatingSupply : String
  blockReward : String
  averageBlockTime : Int
deriving Repr, DecidableEq

/-- The values gathered in the try block of `MonerodClient.getStats`:
block height, difficulty, last-block info (ISO timestamp and reward
string), total supply, then the formatted network hashrate. -/
structure MonerodFetched where
  blockHeight : Int
  difficulty : ℚ
  lastBlockTimestamp : String
  lastBlockReward : String
  totalSupply : String
  networkHashrate : String

/-- `MonerodClient.getStats`: on success assemble the composite with
`status = blockHeight > 0 ? 'connected' : 'disconnected'`; any error
reaching the catch branch yields the all-default disconnected snapshot
(`nowIso` being `new Date().toISOString()` evaluated there). -/
def monerodGetStats (attempt : Except Unit MonerodFetched)
    (nowIso : String) : MonerodStats :=
  match attempt with
  | Except.ok f =>
    { status := if 0 < f.blockHeight then "connected" else "disconnected"
      blockHeight := f.blockHeight
      networkHashrate := f.networkHashrate
      difficulty := f.difficulty
      lastBlockTime := f.lastBlockTimestamp
      totalSupply := f.totalSupply
      circulatingSupply := f.totalSupply
      blockReward := f.lastBlockReward
      averageBlockTime := 120 }
  | Except.error _ =>
    { status := "disconnected"
      blockHeight := 0
      networkHashrate := "0 H/s"
      difficulty := 0
      lastBlockTime := nowIso
      totalSupply := "0"
      circulatingSupply := "0"
      blockReward := "0"
      averageBlockTime := 120 }

/-! ### Pool client (`P2PoolClient`) -/

/-- One element of the `/miners` response array; only `last_share_time`
(epoch seconds) is consumed. -/
structure RawMiner where
  last_share_time : Option Int
deriving Repr, DecidableEq

/-- The `/stats` response body, every field optional.  `min_payout` and
`total_paid` arrive as decimal strings; they are modelled by the rational
value `parseFloat` would produce (an absent or empty string both behave as
the `'0'` default, parsed to 0). -/
structure RawPoolStats where
  pool_hashrate : Option ℚ
  network_hashrate : Option ℚ
  live_hashrate : Option ℚ
  miners : Option ℚ
  workers : Option ℚ
  shares : Option ℚ
  uptime : Option ℚ
  pool_fee : Option ℚ
  min_payout : Option ℚ
  total_paid : Option ℚ
  average_effort : Option ℚ
  current_effort : Option ℚ
deriving Repr, DecidableEq

/-- The `/miners` response body. -/
structure RawMinerStats where
  miners : Option (List RawMiner)
  workers : Option ℚ
deriving Repr, DecidableEq

/-- The `/network` response body. -/
structure RawNetworkStats where
  network_hashrate : Option ℚ
deriving Repr, DecidableEq

/-- JavaScript `x || d` on a possibly-absent number: the default wins when
the value is absent (`undefined`/`null`) or falsy (`0`). -/
def jsOrQ (x : Option ℚ) (d : ℚ) : ℚ :=
  match x with
  | some v => if v = 0 then d else v
  | none => d

/-- JavaScript `x || d` on a possibly-absent integer (epoch seconds). -/
def jsOrI (x : Option Int) (d : Int) : Int :=
  match x with
  | some v => if v = 0 then d else v
  | none => d

/-- `const poolHashrate = poolStats?.pool_hashrate || 0`. -/
def extractPoolHashrate (poolStats : Option RawPoolStats) : ℚ :=
  jsOrQ (poolStats.bind (·.pool_hashrate)) 0

/-- `const networkHashrate = networkStats?.network_hashrate ||
poolStats?.network_hashrate || 0`. -/
def extractNetworkHashrate (networkStats : Option RawNetworkStats)
    (poolStats : Option RawPoolStats) : ℚ :=
  jsOrQ (networkStats.bind (·.network_hashrate))
    (jsOrQ (poolStats.bind (·.network_hashrate)) 0)

/-- `const miners = minerStats?.miners?.length || poolStats?.miners || 0`:
a present miners array contributes its length, but a length of `0` is
falsy and falls through to the pool-stats count. -/
def extractMiners (minerStats : Option RawMinerStats)
    (poolStats : Option RawPoolStats) : ℚ :=
  match (minerStats.bind (·.miners)).map List.length with
  | some n => if n = 0 then jsOrQ (poolStats.bind (·.miners)) 0 else (n : ℚ)
  | none => jsOrQ (poolStats.bind (·.miners)) 0

/-- The `lastShareTime` derivation: starting from the current time, when
the miners array is present and non-empty take `Math.max` of each entry's
`last_share_time || 0`, and use it (converted from epoch seconds to epoch
milliseconds) only when positive. -/
def extractLastShareMs (now : Int) (minerStats : Option RawMinerStats) : Int :=
  match minerStats.bind (·.miners) with
  | some (m :: ms) =>
    let lastShare := (ms.map (fun mi => jsOrI mi.last_share_time 0)).foldl
      max (jsOrI m.last_share_time 0)
    if 0 < lastShare then lastShare * 1000 else now
  | _ => now

/-- `toFixed(12)` after dividing an atomic-unit amount by `1e12`, as used
for `minPayout` and `totalPaid`. -/
def toFixed12 (q : ℚ) : String :=
  let n : Int := ⌊q * 10 ^ 12 + 1 / 2⌋
  let m : Nat := n.toNat
  let ip : Nat := m / 10 ^ 12
  let fp : Nat := m % 10 ^ 12
  let s : String := toString fp
  toString ip ++ "." ++ (String.mk (List.replicate (12 - s.length) '0') ++ s)

/-- The `P2PoolStats` interface.  `lastShareTimeMs` carries the epoch
milliseconds underlying the `toISOString()` rendering. -/
structure P2PoolStats where
  status : String
  poolHashrate : String
  networkHashrate : String
  liveHashrate : String
  miners : ℚ
  workers : ℚ
  shares : ℚ
  lastShareTimeMs : Int
  uptime : ℚ
  poolFee : ℚ
  minPayout : String
  totalPaid : String
  averageEffort : ℚ
  currentEffort : ℚ
deriving Repr, DecidableEq

/-- The merge performed by `P2PoolClient.getStats` once the three endpoint
calls have settled (each `null` when its call failed): ordered `||`
fallback chains per field, `status = poolStats ? 'active' : 'inactive'`,
hashrates formatted, monetary amounts converted from atomic units. -/
def p2poolGetStats (now : Int) (poolStats : Option RawPoolStats)
    (minerStats : Option RawMinerStats)
    (networkStats : Option RawNetworkStats) : P2PoolStats :=
  let poolHashrate := extractPoolHashrate poolStats
  { status := if poolStats.isSome then "active" else "inactive"
    poolHashrate := formatHashrate poolHashrate
    networkHashrate := formatHashrate (extractNetworkHashrate networkStats poolStats)
    liveHashrate := formatHashrate (jsOrQ (poolStats.bind (·.live_hashrate)) poolHashrate)
    miners := extractMiners minerStats poolStats
    workers := jsOrQ (minerStats.bind (·.workers)) (jsOrQ (poolStats.bind (·.workers)) 0)
    shares := jsOrQ (poolStats.bind (·.shares)) 0
    lastShareTimeMs := extractLastShareMs now minerStats
    uptime := jsOrQ (poolStats.bind (·.uptime)) 0
    poolFee := jsOrQ (poolStats.bind (·.pool_fee)) 0
    minPayout := toFixed12 (jsOrQ (poolStats.bind (·.min_payout)) 0 / 10 ^ 12)
    totalPaid := toFixed12 (jsOrQ (poolStats.bind (·.total_paid)) 0 / 10 ^ 12)
    averageEffort := jsOrQ (poolStats.bind (·.average_effort)) 0
    currentEffort := jsOrQ (poolStats.bind (·.current_effort)) 0 }

/-! ### Spec-side definitions used to state the refinement claims -/

/-- An ordered fallback chain over possibly-absent numbers with JavaScript
falsy (`||`) semantics: the first present, non-zero link wins; an exhausted
chain yields 0. -/
def fbChain : List (Option ℚ) → ℚ
  | [] => 0
  | x :: xs =>
    match x with
    | some v => if v = 0 then fbChain xs else v
    | none => fbChain xs

/-- Modelled from the spec words of claim C9: an ordered fallback chain
with null-coalescing (`??`) semantics — the first *present* link wins even
when it is zero. -/
def fbChainNullish : List (Option ℚ) → ℚ
  | [] => 0
  | some v :: _ => v
  | none :: xs => fbChainNullish xs

/-- Modelled from the spec words of claim C9 for `lastShareTime`: the
maximum `last_share_time` over all miner entries (absent times reading as
0), converted from epoch seconds to milliseconds, or the current time when
no miner reported a positive share time. -/
def specLastShareMs (now : Int) (minerStats : Option RawMinerStats) : Int :=
  let times := ((minerStats.bind (·.miners)).getD []).map
    (fun m => m.last_share_time.getD 0)
  let mx := times.foldl max 0
  if 0 < mx then mx * 1000 else now

/-- Index-decorated adjacent pairs `(i, blocks[i], blocks[i+1])`,
starting the index count at `i0`. -/
def withIndexFrom {α : Type} (i0 : Nat) : List α → List (Nat × α)
  | [] => []
  | x :: xs => (i0, x) :: withIndexFrom (i0 + 1) xs

/-- The adjacent `(newer, older)` block pairs, newest first. -/
def adjacentPairs (bs : List BlockHeader) : List (BlockHeader × BlockHeader) :=
  bs.zip bs.tail

/-- The timestamp delta of an adjacent `(newer, older)` pair. -/
def pairDelta (p : BlockHeader × BlockHeader) : ℚ :=
  ((p.1.timestamp - p.2.timestamp : Int) : ℚ)

/-- Spec-side weighted numerator: over index-decorated adjacent pairs with
positive timestamp delta, sum `(difficulty / Δt) · 1 / (i + 1)`. -/
def specWeightedNumer (bs : List BlockHeader) : ℚ :=
  (((withIndexFrom 0 (adjacentPairs bs)).filter
      (fun ip => decide (0 < pairDelta ip.2))).map
    (fun ip => ip.2.1.difficulty / pairDelta ip.2 * (1 / ((ip.1 : ℚ) + 1)))).sum

/-- Spec-side weight total: over the same contributing pairs, sum
`1 / (i + 1)`. -/
def specWeightedDenom (bs : List BlockHeader) : ℚ :=
  (((withIndexFrom 0 (adjacentPairs bs)).filter
      (fun ip => decide (0 < pairDelta ip.2))).map
    (fun ip => (1 : ℚ) / ((ip.1 : ℚ) + 1))).sum

/-! ### Helper lemmas -/

lemma mapGet_mapSet_self {β : Type} (m : StrMap β) (k : String) (v : β) :
    mapGet (mapSet m k v) k = some v := by
  induction m with
  | nil => simp [mapSet, mapGet]
  | cons p rest ih =>
    obtain ⟨k', v'⟩ := p
    by_cases h : k' = k
    · simp [mapSet, mapGet, h]
    · simp [mapSet, mapGet, h, ih]

lemma mapGet_getCacheStatus {α : Type} (cache : Cache α) (now : Int) (k : String) :
    mapGet (getCacheStatus cache now) k =
      (mapGet cache k).map
        (fun e => ⟨now - e.timestamp, decide (now - e.timestamp < cacheTimeout)⟩) := by
  induction cache with
  | nil => rfl
  | cons p rest ih =>
    obtain ⟨k', e⟩ := p
    simp only [getCacheStatus, List.map_cons, mapGet]
    by_cases h : k' = k
    · simp [h]
    · simp only [if_neg h]
      simpa [getCacheStatus] using ih

/-! ### Claims about the cache primitive -/

/-- C1: when the fetch for a key fails, an existing (fresh or expired)
cache entry is returned unchanged with no exception, and only with no
entry at all does the error propagate. -/
theorem c1_stale_fallback {ε α : Type} (cache : Cache α) (key : String)
    (now : Int) (e : ε) :
    (∀ entry : CacheEntry α, mapGet cache key = some entry →
        (getCachedData cache key now (Except.error e)).result = Except.ok entry.data ∧
        (getCachedData cache key now (Except.error e)).cache = cache) ∧
    (mapGet cache key = none →
        getCachedData cache key now (Except.error e) = ⟨Except.error e, cache, true⟩) := by
  constructor
  · intro entry h
    simp only [getCachedData, h]
    by_cases hf : now - entry.timestamp < cacheTimeout
    · simp [hf]
    · simp [hf]
  · intro h
    simp only [getCachedData, h]

theorem c1_witness :
    (getCachedData [("p2pool", CacheEntry.mk (7 : Nat) 0)] "p2pool" 50000
        (Except.error ())).result = Except.ok 7 ∧
    (getCachedData [("p2pool", CacheEntry.mk (7 : Nat) 0)] "p2pool" 50000
        (Except.error ())).cache = [("p2pool", CacheEntry.mk 7 0)] :=
  (@c1_stale_fallback Unit Nat [("p2pool", CacheEntry.mk 7 0)] "p2pool" 50000 ()).1
    (CacheEntry.mk 7 0) rfl

/-- C2: a hit within the 30,000 ms TTL returns the cached value without
invoking the fetch; a miss or expired entry triggers the fetch and, on
success, overwrites the entry with the new value and timestamp; hence two
fetches within one TTL window invoke the underlying fetch exactly once. -/
theorem c2_cache_ttl {ε α : Type} (cache : Cache α) (key : String) (now : Int) :
    (∀ (r : Except ε α) (entry : CacheEntry α),
        mapGet cache key = some entry → now - entry.timestamp < cacheTimeout →
        getCachedData cache key now r = ⟨Except.ok entry.data, cache, false⟩) ∧
    (∀ v : α,
        (mapGet cache key = none ∨
          ∃ entry, mapGet cache key = some entry ∧ cacheTimeout ≤ now - entry.timestamp) →
        getCachedData cache key now (Except.ok v : Except ε α) =
          ⟨Except.ok v, mapSet cache key ⟨v, now⟩, true⟩) ∧
    (∀ (v : α) (t1 : Int) (r : Except ε α),
        mapGet cache key = none → now ≤ t1 → t1 - now < cacheTimeout →
        (getCachedData cache key now (Except.ok v : Except ε α)).fetched = true ∧
        getCachedData (getCachedData cache key now (Except.ok v : Except ε α)).cache key t1 r =
          ⟨Except.ok v, (getCachedData cache key now (Except.ok v : Except ε α)).cache, false⟩) := by
  refine ⟨?_, ?_, ?_⟩
  · intro r entry h hf
    simp only [getCachedData, h]
    simp [hf]
  · intro v h
    rcases h with h | ⟨entry, h, hexp⟩
    · simp only [getCachedData, h]
    · simp only [getCachedData, h]
      simp [not_lt.mpr hexp]
  · intro v t1 r h hle hwin
    have hfirst : getCachedData cache key now (Except.ok v : Except ε α) =
        ⟨Except.ok v, mapSet cache key ⟨v, now⟩, true⟩ := by
      simp only [getCachedData, h]
    refine ⟨by rw [hfirst], ?_⟩
    rw [hfirst]
    simp only [getCachedData, mapGet_mapSet_self]
    simp [hwin]

theorem c2_witness :
    (getCachedData ([] : Cache Nat) "monerod" 0
        (Except.ok 42 : Except Unit Nat)).fetched = true ∧
    getCachedData (getCachedData ([] : Cache Nat) "monerod" 0
        (Except.ok 42 : Except Unit Nat)).cache "monerod" 10 (Except.error ()) =
      ⟨Except.ok 42, (getCachedData ([] : Cache Nat) "monerod" 0
        (Except.ok 42 : Except Unit Nat)).cache, false⟩ :=
  (@c2_cache_ttl Unit Nat [] "monerod" 0).2.2 42 10 (Except.error ()) rfl
    (by decide) (by decide)

/-! ### Claims about the daemon client -/

/-- C3: on the success path of `MonerodClient.getStats`, the status is
`"connected"` exactly when the fetched block height is positive. -/
theorem c3_connected_iff (f : MonerodFetched) (nowIso : String) :
    (monerodGetStats (Except.ok f) nowIso).status = "connected" ↔
      0 < f.blockHeight := by
  simp only [monerodGetStats]
  by_cases h : 0 < f.blockHeight
  · simp [h]
  · simp [h, show ("disconnected" : String) ≠ "connected" by decide]

/-- C4: any error reaching the catch branch of `MonerodClient.getStats`
yields exactly the all-default disconnected snapshot, with no partially
populated fields (the `lastBlockTime` being the current instant rendered
by `toISOString`). -/
theorem c4_default_snapshot (nowIso : String) :
    monerodGetStats (Except.error ()) nowIso =
      { status := "disconnected", blockHeight := 0, networkHashrate := "0 H/s",
        difficulty := 0, lastBlockTime := nowIso, totalSupply := "0",
        circulatingSupply := "0", blockReward := "0", averageBlockTime := 120 } := rfl

/-! ### Claim C8: cache status reporting -/

/-- C8 counterexample: an entry aged exactly 30,000 ms is not older than
30,000 ms, so the claim reports it valid, yet `getCacheStatus` computes
`valid = age < cacheTimeout = false`. -/
theorem c8_counterexample :
    mapGet (getCacheStatus [("monerod", CacheEntry.mk (0 : Nat) 0)] 30000) "monerod" =
      some ⟨30000, false⟩ ∧ validPerClaimC8 30000 = true := by
  constructor
  · rfl
  · rfl

/-- C8 (amended): `getCacheStatus` reports, per cached key, the age since
that entry's write, with `valid = true` exactly when the age is strictly
below 30,000 ms (an entry aged exactly 30,000 ms is already invalid);
keys absent from the cache are absent from the status; and after
`clearCache` the status mapping is empty. -/
theorem c8_cache_status {α : Type} (cache : Cache α) (now : Int) :
    (∀ (k : String) (entry : CacheEntry α), mapGet cache k = some entry →
        mapGet (getCacheStatus cache now) k =
          some ⟨now - entry.timestamp, decide (now - entry.timestamp < cacheTimeout)⟩) ∧
    (∀ k : String, mapGet cache k = none →
        mapGet (getCacheStatus cache now) k = none) ∧
    getCacheStatus (clearCache cache) now = [] := by
  refine ⟨?_, ?_, rfl⟩
  · intro k entry h
    rw [mapGet_getCacheStatus, h]
    rfl
  · intro k h
    rw [mapGet_getCacheStatus, h]
    rfl

theorem c8_witness :
    mapGet (getCacheStatus [("monerod", CacheEntry.mk (42 : Nat) 10)] 20) "monerod" =
      some ⟨20 - 10, decide ((20 : Int) - 10 < cacheTimeout)⟩ ∧
    getCacheStatus (clearCache [("monerod", CacheEntry.mk (42 : Nat) 10)]) 20 = [] :=
  ⟨(c8_cache_status [("monerod", CacheEntry.mk 42 10)] 20).1 "monerod"
      (CacheEntry.mk 42 10) rfl,
    (c8_cache_status [("monerod", CacheEntry.mk 42 10)] 20).2.2⟩

/-! ### Claim C6: the weighted estimator -/

lemma weightedSumsAux_eq :
    ∀ (bs : List BlockHeader) (i : Nat),
      weightedSumsAux bs i =
        ((((withIndexFrom i (adjacentPairs bs)).filter
            (fun ip => decide (0 < pairDelta ip.2))).map
          (fun ip => ip.2.1.difficulty / pairDelta ip.2 * (1 / ((ip.1 : ℚ) + 1)))).sum,
         (((withIndexFrom i (adjacentPairs bs)).filter
            (fun ip => decide (0 < pairDelta ip.2))).map
          (fun ip => (1 : ℚ) / ((ip.1 : ℚ) + 1))).sum)
  | [], i => by simp [weightedSumsAux, adjacentPairs, withIndexFrom]
  | [b], i => by simp [weightedSumsAux, adjacentPairs, withIndexFrom]
  | b1 :: b2 :: rest, i => by
    have ih := weightedSumsAux_eq (b2 :: rest) (i + 1)
    have hpairs : adjacentPairs (b1 :: b2 :: rest) =
        (b1, b2) :: adjacentPairs (b2 :: rest) := rfl
    by_cases hdt : (0 : ℚ) < pairDelta (b1, b2)
    · have hneg : ¬ ((b1.timestamp - b2.timestamp : Int) : ℚ) ≤ 0 := not_le.mpr hdt
      simp only [weightedSumsAux]
      rw [if_neg hneg, ih, hpairs]
      simp only [withIndexFrom, List.filter_cons, decide_eq_true_eq]
      rw [if_pos hdt]
      simp only [List.map_cons, List.sum_cons]
      exact Prod.ext (add_comm _ _) (add_comm _ _)
    · have hpos : ((b1.timestamp - b2.timestamp : Int) : ℚ) ≤ 0 := not_lt.mp hdt
      simp only [weightedSumsAux]
      rw [if_pos hpos, ih, hpairs]
      simp only [withIndexFrom, List.filter_cons, decide_eq_true_eq]
      rw [if_neg hdt]

/-- C6: with at least 2 blocks, the weighted estimator is the weighted
average over index-decorated adjacent pairs with positive timestamp delta
of `difficulty / Δt` weighted by `1 / (i + 1)`; skipped pairs contribute
neither value nor weight (and with no contributing pair the result is 0). -/
theorem c6_weighted_average (bs : List BlockHeader) (h : 2 ≤ bs.length) :
    calculateWeightedHashrate bs =
      if 0 < specWeightedDenom bs then specWeightedNumer bs / specWeightedDenom bs
      else 0 := by
  unfold calculateWeightedHashrate
  rw [if_neg (by omega : ¬ bs.length < 2)]
  show (if 0 < (weightedSumsAux bs 0).2 then
      (weightedSumsAux bs 0).1 / (weightedSumsAux bs 0).2 else 0) = _
  rw [weightedSumsAux_eq bs 0]
  rfl

/-- Three concrete newest-first blocks with equal difficulties and equal
100-second spacings. -/
def demoBlocks : List BlockHeader :=
  [⟨2, 300, 240⟩, ⟨1, 200, 240⟩, ⟨0, 100, 240⟩]

theorem c6_witness :
    2 ≤ demoBlocks.length ∧
    calculateWeightedHashrate demoBlocks =
      (if 0 < specWeightedDenom demoBlocks then
        specWeightedNumer demoBlocks / specWeightedDenom demoBlocks else 0) :=
  ⟨by norm_num [demoBlocks],
    c6_weighted_average demoBlocks (by norm_num [demoBlocks])⟩

/-! ### Claims C5 and C10: `calculateNetworkHashrate` -/

/-- C5: whenever fewer than 2 blocks are collected — the collection loop
aborts on a failed fetch, or completes with fewer than 2 blocks — the call
returns the `"difficulty_fallback"` result `difficulty / 120` instead of
propagating an error. -/
theorem c5_difficulty_fallback (getBlock : Int → Except Unit BlockHeader)
    (currentHeight : Int) (blockCount : Nat) (difficulty : ℚ)
    (h : collectBlocks getBlock currentHeight blockCount = Except.error () ∨
        ∃ bs, collectBlocks getBlock currentHeight blockCount = Except.ok bs ∧
          bs.length < 2) :
    calculateNetworkHashrate getBlock currentHeight blockCount difficulty =
      ⟨formatHashrate (difficulty / 120), difficulty / 120, "difficulty_fallback"⟩ := by
  rcases h with h | ⟨bs, h, hlen⟩
  · simp only [calculateNetworkHashrate, h]
  · simp only [calculateNetworkHashrate, h]
    rw [if_pos hlen]

/-- A block oracle whose every fetch fails. -/
def failingGetBlock : Int → Except Unit BlockHeader := fun _ => Except.error ()

theorem c5_witness :
    (collectBlocks failingGetBlock 10 10 = Except.error () ∨
      ∃ bs, collectBlocks failingGetBlock 10 10 = Except.ok bs ∧ bs.length < 2) ∧
    calculateNetworkHashrate failingGetBlock 10 10 240 =
      ⟨formatHashrate (240 / 120), 240 / 120, "difficulty_fallback"⟩ :=
  ⟨Or.inl rfl, c5_difficulty_fallback failingGetBlock 10 10 240 (Or.inl rfl)⟩

lemma weightedSumsAux_of_nonpos (bs : List BlockHeader)
    (h : ∀ p ∈ adjacentPairs bs, pairDelta p ≤ 0) :
    ∀ i, weightedSumsAux bs i = (0, 0) := by
  induction bs with
  | nil => intro i; rfl
  | cons b1 tl ih =>
    intro i
    cases tl with
    | nil => rfl
    | cons b2 rest =>
      have hpairs : adjacentPairs (b1 :: b2 :: rest) =
          (b1, b2) :: adjacentPairs (b2 :: rest) := rfl
      have h1 : pairDelta (b1, b2) ≤ 0 := by
        refine h (b1, b2) ?_
        rw [hpairs]
        exact List.mem_cons_self _ _
      have h2 : ∀ p ∈ adjacentPairs (b2 :: rest), pairDelta p ≤ 0 := by
        intro p hp
        refine h p ?_
        rw [hpairs]
        exact List.mem_cons_of_mem _ hp
      have h1c : ((b1.timestamp - b2.timestamp : Int) : ℚ) ≤ 0 := h1
      simp only [weightedSumsAux]
      rw [if_pos h1c]
      exact ih h2 (i + 1)

lemma toFixed2_floor (q : ℚ) (m : Nat) (h : ⌊q * 100 + 1 / 2⌋ = (m : Int)) :
    toFixed2 q = toString (m / 100) ++ "." ++
      (if m % 100 < 10 then "0" ++ toString (m % 100) else toString (m % 100)) := by
  simp only [toFixed2]
  rw [h]
  simp

lemma formatHashrate_eval (q h' : ℚ) (idx : Nat) (s : String)
    (hl : formatLoop 4 q 0 = (h', idx)) (hs : toFixed2 h' = s) :
    formatHashrate q = s ++ " " ++ hashrateUnits.getD idx "" := by
  simp only [formatHashrate, hl, hs]

lemma formatHashrate_zero : formatHashrate 0 = "0.00 H/s" := by
  have hl : formatLoop 4 0 0 = (0, 0) := by norm_num [formatLoop]
  have hf : toFixed2 0 = "0.00" := by
    rw [toFixed2_floor 0 0 (by rw [Int.floor_eq_iff]; norm_num)]
    norm_num
    rfl
  rw [formatHashrate_eval 0 0 0 "0.00" hl hf]
  rfl

/-- C10: when at least 2 blocks are collected but every adjacent pair has a
non-positive timestamp delta, the call still reports
`"weighted_average"` with value 0 (formatted `"0.00 H/s"`), not the
difficulty fallback. -/
theorem c10_weighted_zero_result (getBlock : Int → Except Unit BlockHeader)
    (currentHeight : Int) (blockCount : Nat) (difficulty : ℚ)
    (bs : List BlockHeader)
    (hok : collectBlocks getBlock currentHeight blockCount = Except.ok bs)
    (hlen : 2 ≤ bs.length)
    (hdt : ∀ p ∈ adjacentPairs bs, pairDelta p ≤ 0) :
    calculateNetworkHashrate getBlock currentHeight blockCount difficulty =
      ⟨"0.00 H/s", 0, "weighted_average"⟩ := by
  have hw : calculateWeightedHashrate bs = 0 := by
    unfold calculateWeightedHashrate
    rw [if_neg (by omega : ¬ bs.length < 2)]
    show (if 0 < (weightedSumsAux bs 0).2 then
        (weightedSumsAux bs 0).1 / (weightedSumsAux bs 0).2 else 0) = 0
    rw [weightedSumsAux_of_nonpos bs hdt 0]
    norm_num
  simp only [calculateNetworkHashrate, hok]
  rw [if_neg (by omega : ¬ bs.length < 2), hw, formatHashrate_zero]

/-- A block oracle returning the same timestamp for every height. -/
def flatGetBlock : Int → Except Unit BlockHeader := fun h => Except.ok ⟨h, 100, 240⟩

/-- The three blocks `flatGetBlock` yields from height 3. -/
def flatBlocks : List BlockHeader := [⟨2, 100, 240⟩, ⟨1, 100, 240⟩, ⟨0, 100, 240⟩]

theorem c10_witness :
    collectBlocks flatGetBlock 3 10 = Except.ok flatBlocks ∧
    2 ≤ flatBlocks.length ∧
    (∀ p ∈ adjacentPairs flatBlocks, pairDelta p ≤ 0) ∧
    calculateNetworkHashrate flatGetBlock 3 10 500 =
      ⟨"0.00 H/s", 0, "weighted_average"⟩ := by
  have hdt : ∀ p ∈ adjacentPairs flatBlocks, pairDelta p ≤ 0 := by decide
  exact ⟨rfl, by norm_num [flatBlocks], hdt,
    c10_weighted_zero_result flatGetBlock 3 10 500 flatBlocks rfl
      (by norm_num [flatBlocks]) hdt⟩

/-! ### Claim C7: the hashrate formatter -/

lemma formatLoop_spec (q : ℚ) (_hq : 0 ≤ q) :
    formatLoop 4 q 0 = (q / 1000 ^ specUnitIdx q, specUnitIdx q) := by
  have p1000 : (0 : ℚ) < 1000 := by norm_num
  by_cases h1 : q < 1000
  · have hs : specUnitIdx q = 0 := by simp [specUnitIdx, h1]
    rw [hs]
    simp only [formatLoop]
    rw [if_neg (by rintro ⟨hc, -⟩; linarith)]
    norm_num
  · have hge1 : (1000 : ℚ) ≤ q := not_lt.mp h1
    by_cases h2 : q < 1000 ^ 2
    · have hs : specUnitIdx q = 1 := by simp [specUnitIdx, h1, h2]
      have h2n : q < 1000000 := by norm_num at h2; exact h2
      rw [hs]
      simp only [formatLoop]
      rw [if_pos ⟨hge1, by norm_num⟩]
      rw [if_neg (by
        rintro ⟨hc, -⟩
        rw [le_div_iff₀ p1000] at hc
        linarith)]
      norm_num
    · have hge2 : (1000000 : ℚ) ≤ q := by
        have := not_lt.mp h2
        norm_num at this
        exact this
      by_cases h3 : q < 1000 ^ 3
      · have hs : specUnitIdx q = 2 := by simp [specUnitIdx, h1, h2, h3]
        have h3n : q < 1000000000 := by norm_num at h3; exact h3
        rw [hs]
        simp only [formatLoop]
        rw [if_pos ⟨hge1, by norm_num⟩]
        rw [if_pos ⟨by rw [le_div_iff₀ p1000]; linarith, by norm_num⟩]
        rw [if_neg (by
          rintro ⟨hc, -⟩
          rw [div_div, le_div_iff₀ (by norm_num : (0 : ℚ) < 1000 * 1000)] at hc
          linarith)]
        rw [Prod.mk.injEq]
        norm_num [div_div]
      · have hge3 : (1000000000 : ℚ) ≤ q := by
          have := not_lt.mp h3
          norm_num at this
          exact this
        by_cases h4 : q < 1000 ^ 4
        · have hs : specUnitIdx q = 3 := by simp [specUnitIdx, h1, h2, h3, h4]
          have h4n : q < 1000000000000 := by norm_num at h4; exact h4
          rw [hs]
          simp only [formatLoop]
          rw [if_pos ⟨hge1, by norm_num⟩]
          rw [if_pos ⟨by rw [le_div_iff₀ p1000]; linarith, by norm_num⟩]
          rw [if_pos ⟨by
            rw [div_div, le_div_iff₀ (by norm_num : (0 : ℚ) < 1000 * 1000)]
            linarith, by norm_num⟩]
          rw [if_neg (by
            rintro ⟨hc, -⟩
            rw [div_div, div_div,
              le_div_iff₀ (by norm_num : (0 : ℚ) < 1000 * (1000 * 1000))] at hc
            linarith)]
          rw [Prod.mk.injEq]
          norm_num [div_div]
        · have hs : specUnitIdx q = 4 := by simp [specUnitIdx, h1, h2, h3, h4]
          have hge4 : (1000000000000 : ℚ) ≤ q := by
            have := not_lt.mp h4
            norm_num at this
            exact this
          rw [hs]
          simp only [formatLoop]
          rw [if_pos ⟨hge1, by norm_num⟩]
          rw [if_pos ⟨by rw [le_div_iff₀ p1000]; linarith, by norm_num⟩]
          rw [if_pos ⟨by
            rw [div_div, le_div_iff₀ (by norm_num : (0 : ℚ) < 1000 * 1000)]
            linarith, by norm_num⟩]
          rw [if_pos ⟨by
            rw [div_div, div_div,
              le_div_iff₀ (by norm_num : (0 : ℚ) < 1000 * (1000 * 1000))]
            linarith, by norm_num⟩]
          rw [Prod.mk.injEq]
          norm_num [div_div]

lemma formatHashrate_1500 : formatHashrate 1500 = "1.50 KH/s" := by
  have hl : formatLoop 4 1500 0 = (3 / 2, 1) := by norm_num [formatLoop]
  have hf : toFixed2 (3 / 2) = "1.50" := by
    rw [toFixed2_floor (3 / 2) 150 (by rw [Int.floor_eq_iff]; norm_num)]
    norm_num
    rfl
  rw [formatHashrate_eval 1500 (3 / 2) 1 "1.50" hl hf]
  rfl

lemma formatHashrate_2500G : formatHashrate 2500000000000 = "2.50 TH/s" := by
  have hl : formatLoop 4 2500000000000 0 = (5 / 2, 4) := by norm_num [formatLoop]
  have hf : toFixed2 (5 / 2) = "2.50" := by
    rw [toFixed2_floor (5 / 2) 250 (by rw [Int.floor_eq_iff]; norm_num)]
    norm_num
    rfl
  rw [formatHashrate_eval 2500000000000 (5 / 2) 4 "2.50" hl hf]
  rfl

/-- C7: on every finite non-negative rate, `formatHashrate` scales by 1000
into the largest unit not past `TH/s` — the unit index is the largest
`k ≤ 4` with `1000 ^ k ≤ rate` — then prints the scaled value to two
decimals with the unit appended; in particular `format 0 = "0.00 H/s"`,
`format 1500 = "1.50 KH/s"` and `format 2500000000000 = "2.50 TH/s"`. -/
theorem c7_format_hashrate (q : ℚ) (hq : 0 ≤ q) :
    formatHashrate q =
      toFixed2 (q / 1000 ^ specUnitIdx q) ++ " " ++
        hashrateUnits.getD (specUnitIdx q) "" ∧
    specUnitIdx q ≤ 4 ∧
    formatHashrate 0 = "0.00 H/s" ∧
    formatHashrate 1500 = "1.50 KH/s" ∧
    formatHashrate 2500000000000 = "2.50 TH/s" := by
  refine ⟨?_, ?_, formatHashrate_zero, formatHashrate_1500, formatHashrate_2500G⟩
  · exact formatHashrate_eval q _ _ _ (formatLoop_spec q hq) rfl
  · unfold specUnitIdx
    split_ifs <;> norm_num

theorem c7_witness :
    (0 : ℚ) ≤ 1500 ∧
    (formatHashrate 1500 =
        toFixed2 ((1500 : ℚ) / 1000 ^ specUnitIdx 1500) ++ " " ++
          hashrateUnits.getD (specUnitIdx 1500) "" ∧
      specUnitIdx 1500 ≤ 4 ∧
      formatHashrate 0 = "0.00 H/s" ∧
      formatHashrate 1500 = "1.50 KH/s" ∧
      formatHashrate 2500000000000 = "2.50 TH/s") :=
  ⟨by norm_num, c7_format_hashrate 1500 (by norm_num)⟩

/-! ### Claim C9: the pool-stats merge -/

lemma fbChain_single (x : Option ℚ) : fbChain [x] = jsOrQ x 0 := by
  cases x <;> rfl

lemma fbChain_cons_some (v : ℚ) (xs : List (Option ℚ)) :
    fbChain (some v :: xs) = if v = 0 then fbChain xs else v := rfl

lemma fbChain_cons_none (xs : List (Option ℚ)) :
    fbChain (none :: xs) = fbChain xs := rfl

lemma fbChain_pair (x y : Option ℚ) : fbChain [x, y] = jsOrQ x (jsOrQ y 0) := by
  cases x with
  | none => exact fbChain_single y
  | some v =>
    rw [fbChain_cons_some, fbChain_single]
    rfl

lemma jsOrI_zero (x : Option Int) : jsOrI x 0 = x.getD 0 := by
  cases x with
  | none => rfl
  | some v =>
    by_cases h : v = 0 <;> simp [jsOrI, h]

lemma foldl_max_max (l : List Int) : ∀ c a : Int,
    l.foldl max (max c a) = max c (l.foldl max a) := by
  induction l with
  | nil => intro c a; rfl
  | cons x xs ih =>
    intro c a
    show xs.foldl max (max (max c a) x) = max c (xs.foldl max (max a x))
    rw [max_assoc, ih]

lemma extractMiners_eq_chain (minerStats : Option RawMinerStats)
    (poolStats : Option RawPoolStats) :
    extractMiners minerStats poolStats =
      fbChain [(minerStats.bind (·.miners)).map (fun l => ((l.length : Nat) : ℚ)),
        poolStats.bind (·.miners)] := by
  unfold extractMiners
  cases hms : minerStats.bind (·.miners) with
  | none =>
    simp only [Option.map_none', fbChain_cons_none, fbChain_single]
  | some l =>
    simp only [Option.map_some', fbChain_cons_some, fbChain_single]
    by_cases h : l.length = 0
    · have hc : ((l.length : Nat) : ℚ) = 0 := by exact_mod_cast h
      simp [h, hc]
    · have hc : ¬ ((l.length : Nat) : ℚ) = 0 := by exact_mod_cast h
      simp [h, hc]

lemma extractLastShareMs_eq_spec (now : Int) (minerStats : Option RawMinerStats) :
    extractLastShareMs now minerStats = specLastShareMs now minerStats := by
  unfold extractLastShareMs specLastShareMs
  cases hms : minerStats.bind (·.miners) with
  | none => simp
  | some l =>
    cases l with
    | nil => simp
    | cons m ms =>
      simp only [Option.getD_some, List.map_cons, List.foldl_cons, jsOrI_zero]
      have hfold : ∀ a : Int, (ms.map (fun mi => mi.last_share_time.getD 0)).foldl
          max (max 0 a) =
          max 0 ((ms.map (fun mi => mi.last_share_time.getD 0)).foldl max a) :=
        fun a => foldl_max_max _ 0 a
      rw [hfold]
      set F := (ms.map (fun mi => mi.last_share_time.getD 0)).foldl max
        (m.last_share_time.getD 0) with hF
      by_cases hpos : 0 < F
      · rw [max_eq_right (le_of_lt hpos)]
      · rw [max_eq_left (not_lt.mp hpos)]
        simp [hpos]

/-- C9 (amended): the merge's fallback chains obey JavaScript falsy (`||`)
semantics, not null-coalescing: each chain takes its first present and
non-zero link, so a present-but-empty miners array (length 0, falsy) falls
through to the pool-stats miner count; `lastShareTime` is the maximum
reported `last_share_time` (absent values reading as 0) converted from
epoch seconds, or the current time when no positive share time exists. -/
theorem c9_fallback_chains (now : Int) (poolStats : Option RawPoolStats)
    (minerStats : Option RawMinerStats) (networkStats : Option RawNetworkStats) :
    extractPoolHashrate poolStats = fbChain [poolStats.bind (·.pool_hashrate)] ∧
    extractNetworkHashrate networkStats poolStats =
      fbChain [networkStats.bind (·.network_hashrate),
        poolStats.bind (·.network_hashrate)] ∧
    extractMiners minerStats poolStats =
      fbChain [(minerStats.bind (·.miners)).map (fun l => ((l.length : Nat) : ℚ)),
        poolStats.bind (·.miners)] ∧
    extractLastShareMs now minerStats = specLastShareMs now minerStats ∧
    (p2poolGetStats now poolStats minerStats networkStats).poolHashrate =
      formatHashrate (extractPoolHashrate poolStats) ∧
    (p2poolGetStats now poolStats minerStats networkStats).miners =
      extractMiners minerStats poolStats ∧
    (p2poolGetStats now poolStats minerStats networkStats).lastShareTimeMs =
      extractLastShareMs now minerStats :=
  ⟨(fbChain_single _).symm, (fbChain_pair _ _).symm,
    extractMiners_eq_chain minerStats poolStats,
    extractLastShareMs_eq_spec now minerStats, rfl, rfl, rfl⟩

/-- A `/stats` response reporting 5 miners and nothing else. -/
def c9PoolRaw : RawPoolStats :=
  ⟨none, none, none, some 5, none, none, none, none, none, none, none, none⟩

/-- A `/miners` response with a present but empty miners array. -/
def c9MinerRaw : RawMinerStats := ⟨some [], none⟩

/-- C9 counterexample: with a present-but-empty miners array and a
pool-stats count of 5, the code's `||` chain yields 5 (the empty array's
length 0 is falsy and falls through), while the claim's null-coalescing
`??` chain yields 0 — so the claim's reading is false on the code. -/
theorem c9_counterexample :
    extractMiners (some c9MinerRaw) (some c9PoolRaw) = 5 ∧
    (p2poolGetStats 0 (some c9PoolRaw) (some c9MinerRaw) none).miners = 5 ∧
    fbChainNullish
      [((some c9MinerRaw).bind (·.miners)).map (fun l => ((l.length : Nat) : ℚ)),
        (some c9PoolRaw).bind (·.miners)] = 0 ∧
    (5 : ℚ) ≠ 0 := by
  refine ⟨?_, ?_, ?_, by norm_num⟩
  · norm_num [extractMiners, jsOrQ, c9MinerRaw, c9PoolRaw]
  · norm_num [p2poolGetStats, extractMiners, jsOrQ, c9MinerRaw, c9PoolRaw]
  · norm_num [fbChainNullish, c9MinerRaw, c9PoolRaw]
